import Mathlib

/-!
Verification of the Nomad-AI travel planner against its specification.

The frontend form logic (`validateForm`, `handleActivityChange` in
`nomadai-frontend/src/app/page.tsx`) is embedded directly from the
TypeScript source.  JavaScript primitives that the source relies on
(string truthiness, `String.prototype.trim`, lexicographic `>=` on
strings, `parseInt`) are modelled explicitly as executable functions on
`List Char`, so that every theorem can be evaluated on concrete inputs.

The backend engine (budget allocator, ranking primitive, itinerary
synthesizer) is described by the specification but its Python source is
not part of the repository; those components are modelled from the
specification text, as marked in the individual doc comments.
-/

/-! ## JavaScript string primitives -/

/-- JavaScript string truthiness test: a string is falsy exactly when it is empty.
This models the `!formData.field` checks in `validateForm`. -/
def jsFalsy (s : String) : Bool := s.data.isEmpty

/-- Whitespace test used by the model of `String.prototype.trim`. -/
def jsWhitespace (c : Char) : Bool := c.isWhitespace

/-- Model of JavaScript `String.prototype.trim`: drop leading and trailing whitespace. -/
def jsTrim (s : String) : String :=
  ⟨((s.data.dropWhile jsWhitespace).reverse.dropWhile jsWhitespace).reverse⟩

/-- Lexicographic (code-unit) strict comparison on character lists, as JavaScript
performs for `<` on strings.  `jsStringLt a b = true` iff `a < b` code-unit-wise. -/
def lexLtChars : List Char → List Char → Bool
  | _, [] => false
  | [], _ :: _ => true
  | a :: as, b :: bs =>
    if a.toNat < b.toNat then true
    else if b.toNat < a.toNat then false
    else lexLtChars as bs

/-- JavaScript string `<`.  The source's `startDate >= endDate` is
`!(startDate < endDate)` for string operands. -/
def jsStringLt (a b : String) : Bool := lexLtChars a.data b.data

/-- Decimal digit test by code unit. -/
def isDigitChar (c : Char) : Bool := 48 ≤ c.toNat && c.toNat ≤ 57

/-- Numeric value of a hexadecimal digit character, if it is one. -/
def hexDigitVal (c : Char) : Option Nat :=
  if 48 ≤ c.toNat && c.toNat ≤ 57 then some (c.toNat - 48)
  else if 97 ≤ c.toNat && c.toNat ≤ 102 then some (c.toNat - 87)
  else if 65 ≤ c.toNat && c.toNat ≤ 70 then some (c.toNat - 55)
  else none

/-- Digit value of `c` in the given radix, if `c` is a digit of that radix. -/
def radixDigit (radix : Nat) (c : Char) : Option Nat :=
  match hexDigitVal c with
  | some v => if v < radix then some v else none
  | none => none

/-- Accumulate the value of a maximal leading run of digits. -/
def parseDigitsAux (radix : Nat) : List Char → Nat → Nat
  | [], acc => acc
  | c :: cs, acc =>
    match radixDigit radix c with
    | some v => parseDigitsAux radix cs (acc * radix + v)
    | none => acc

/-- Parse a maximal nonempty leading run of digits; `none` when the first
character is not a digit (JavaScript `parseInt` then yields `NaN`). -/
def parseDigits (radix : Nat) : List Char → Option Nat
  | [] => none
  | c :: cs =>
    match radixDigit radix c with
    | some v => some (parseDigitsAux radix cs v)
    | none => none

/-- Model of JavaScript `parseInt(string)`: skip leading whitespace, read an
optional sign, detect a `0x`/`0X` hexadecimal prefix, then read a maximal run
of digits.  `none` models the `NaN` result. -/
def jsParseInt (s : String) : Option Int :=
  let cs := s.data.dropWhile jsWhitespace
  match cs with
  | '-' :: rest => (jsParseIntUnsigned rest).map (fun n => -(n : Int))
  | '+' :: rest => (jsParseIntUnsigned rest).map (fun n => (n : Int))
  | _ => (jsParseIntUnsigned cs).map (fun n => (n : Int))
where
  /-- Parse the unsigned part, handling the hexadecimal prefix. -/
  jsParseIntUnsigned : List Char → Option Nat
  | '0' :: 'x' :: rest => parseDigits 16 rest
  | '0' :: 'X' :: rest => parseDigits 16 rest
  | cs => parseDigits 10 cs

/-- The source's `parseInt(formData.field) <= 0` test: `NaN <= 0` is false in
JavaScript, so a failed parse yields `false`. -/
def nonPositiveParseInt (s : String) : Bool :=
  match jsParseInt s with
  | some n => decide (n ≤ 0)
  | none => false

/-! ## The travel form (from `nomadai-frontend/src/app/page.tsx`) -/

/-- The `TravelFormData` interface of the frontend. -/
structure TravelFormData where
  origin : String
  destination : String
  startDate : String
  endDate : String
  strictDates : String
  budget : String
  people : String
  travelMode : String
  activities : List String
  visitedBefore : String
  hotelPreference : String

/-- Which keys of `newErrors` are set by `validateForm` (the error messages
themselves are irrelevant to control flow; only key presence is). -/
structure FormErrors where
  origin : Bool
  destination : Bool
  startDate : Bool
  endDate : Bool
  budget : Bool
  people : Bool
  travelMode : Bool
  activities : Bool
  hotelPreference : Bool

/-- The error-recording part of `validateForm` (page.tsx lines 509-545),
field by field.  The `endDate` key is set when the field is missing or when
both dates are present and `startDate >= endDate` lexicographically. -/
def validateErrors (f : TravelFormData) : FormErrors where
  origin := jsFalsy (jsTrim f.origin)
  destination := jsFalsy (jsTrim f.destination)
  startDate := jsFalsy f.startDate
  endDate := jsFalsy f.endDate ||
    (!(jsFalsy f.startDate) && !(jsFalsy f.endDate) && !(jsStringLt f.startDate f.endDate))
  budget := jsFalsy f.budget || nonPositiveParseInt f.budget
  people := jsFalsy f.people || nonPositiveParseInt f.people
  travelMode := jsFalsy f.travelMode
  activities := f.activities.length == 0
  hotelPreference := jsFalsy f.hotelPreference

/-- The return value of `validateForm`: `true` iff no error key was recorded,
which is the condition under which `handleSubmit` calls `onSubmit`. -/
def validateForm (f : TravelFormData) : Bool :=
  !((validateErrors f).origin || (validateErrors f).destination ||
    (validateErrors f).startDate || (validateErrors f).endDate ||
    (validateErrors f).budget || (validateErrors f).people ||
    (validateErrors f).travelMode || (validateErrors f).activities ||
    (validateErrors f).hotelPreference)

/-- The state update of `handleActivityChange` (page.tsx lines 500-507 and
TravelPlanner.tsx lines 54-61): remove the activity if present, append it
otherwise. -/
def handleActivityChange (activity : String) (prev : List String) : List String :=
  if prev.contains activity then prev.filter (fun a => a != activity)
  else prev ++ [activity]

/-- Modelled from the spec: the budget field "denotes a positive currency
amount" when it is a decimal numeral (digits with at most one decimal point)
of strictly positive value.  Collect the digit characters, refusing any other
character; the value is positive iff some digit is nonzero. -/
def decimalNumeralDigits : List Char → Bool → Option (List Char)
  | [], _ => some []
  | c :: cs, sawDot =>
    if isDigitChar c then
      match decimalNumeralDigits cs sawDot with
      | some ds => some (c :: ds)
      | none => none
    else if c == '.' && !sawDot then decimalNumeralDigits cs true
    else none

/-- Modelled from the spec: whether a budget string denotes a positive amount
(see `decimalNumeralDigits`). -/
def denotesPositiveAmount (s : String) : Bool :=
  match decimalNumeralDigits s.data false with
  | some ds => !ds.isEmpty && ds.any (fun c => c != '0')
  | none => false

/-- A submitted form, valid in every field, whose budget string denotes the
positive amount 0.50. -/
def formBudgetFractional : TravelFormData where
  origin := "NYC"
  destination := "Paris"
  startDate := "2024-05-01"
  endDate := "2024-05-05"
  strictDates := "yes"
  budget := "0.50"
  people := "2"
  travelMode := "plane"
  activities := ["food"]
  visitedBefore := "no"
  hotelPreference := "mid-range"

/-- A submitted form, valid in every field except that its budget string is
non-numeric and so denotes no (positive) amount at all. -/
def formBudgetNonNumeric : TravelFormData where
  origin := "NYC"
  destination := "Paris"
  startDate := "2024-05-01"
  endDate := "2024-05-05"
  strictDates := "yes"
  budget := "abc"
  people := "2"
  travelMode := "plane"
  activities := ["food"]
  visitedBefore := "no"
  hotelPreference := "mid-range"

/-! ## ISO date strings

The date inputs of the form are ISO `YYYY-MM-DD` strings (HTML date inputs).
To settle C1 we relate the source's lexicographic string comparison to
chronological order of the dates the strings denote. -/

/-- The decimal digit character for a digit value (values above nine never
arise under the validity bounds used here). -/
def dchar : Nat → Char
  | 0 => '0'
  | 1 => '1'
  | 2 => '2'
  | 3 => '3'
  | 4 => '4'
  | 5 => '5'
  | 6 => '6'
  | 7 => '7'
  | 8 => '8'
  | _ => '9'

/-- The `k`-character zero-padded decimal representation of `n`,
most significant digit first. -/
def natToDigits : Nat → Nat → List Char
  | 0, _ => []
  | k + 1, n => dchar (n / 10 ^ k) :: natToDigits k (n % 10 ^ k)

/-- A calendar date as rendered by an ISO `YYYY-MM-DD` string. -/
structure IsoDate where
  year : Nat
  month : Nat
  day : Nat

/-- Structural validity of a date for a four-digit ISO rendering. -/
def IsoDate.Valid (d : IsoDate) : Prop :=
  d.year ≤ 9999 ∧ 1 ≤ d.month ∧ d.month ≤ 12 ∧ 1 ≤ d.day ∧ d.day ≤ 31

/-- Chronological key of a date: later dates have strictly larger keys. -/
def IsoDate.key (d : IsoDate) : Nat :=
  d.year * 10000 + d.month * 100 + d.day

/-- The ISO `YYYY-MM-DD` rendering of a date. -/
def isoString (d : IsoDate) : String :=
  ⟨natToDigits 4 d.year ++ '-' :: (natToDigits 2 d.month ++ '-' :: natToDigits 2 d.day)⟩

/-- A concrete date used by the C1 witness. -/
def isoDateMay10 : IsoDate where
  year := 2024
  month := 5
  day := 10

/-- A submitted form whose start and end dates are the same ISO date, used by
the C1 witness. -/
def formSameDates : TravelFormData where
  origin := "NYC"
  destination := "Paris"
  startDate := isoString isoDateMay10
  endDate := isoString isoDateMay10
  strictDates := "yes"
  budget := "1200"
  people := "2"
  travelMode := "plane"
  activities := ["food"]
  visitedBefore := "no"
  hotelPreference := "mid-range"

/-! ## Recommendation and synthesis engine

The backend sources (`budget_agent.py`, `search_agent.py`, `summary_agent.py`)
are not part of the repository; only their README and the specification
describe them.  Everything in this section is modelled from the
specification text (sections 3, 4.1, 4.2, 4.5 and 8 of the spec). -/

/-- Modelled from the spec: a TripRequest (section 3), restricted to the
fields the budget allocator and synthesizer consume.  Money is in integer
cents. -/
structure TripRequest where
  origin : String
  destination : String
  durationDays : Nat
  budgetCents : Nat
  travelers : Nat
  activityCategories : List String

/-- Modelled from the spec: one category's slice of a BudgetAllocation. -/
structure CategoryAlloc where
  percentage : Nat
  amountCents : Nat

/-- Modelled from the spec: a BudgetAllocation over the five fixed categories,
with the fallback-used flag (section 4.2). -/
structure BudgetAllocation where
  flights : CategoryAlloc
  accommodation : CategoryAlloc
  activities : CategoryAlloc
  food : CategoryAlloc
  transportation : CategoryAlloc
  fallbackUsed : Bool

/-- Modelled from the spec: percentages parsed from the upstream reasoning
service's response (section 9 models the response as a tagged variant). -/
structure UpstreamPercentages where
  flights : Nat
  accommodation : Nat
  activities : Nat
  food : Nat
  transportation : Nat

/-- Modelled from the spec: the resolved outcome of the upstream call after
up to 2 retries: a parsed response, or failure. -/
inductive UpstreamOutcome where
  | parsed (p : UpstreamPercentages)
  | failed

/-- Sum of the five parsed percentages. -/
def UpstreamPercentages.total (p : UpstreamPercentages) : Nat :=
  p.flights + p.accommodation + p.activities + p.food + p.transportation

/-- Modelled from the spec: schema validation of the upstream response,
"reject and discard any response whose percentages do not sum to 100 plus or
minus 2". -/
def percentagesValid (p : UpstreamPercentages) : Bool :=
  98 ≤ p.total && p.total ≤ 102

/-- Category amount in integer cents for a percentage of the budget. -/
def amountOf (budgetCents pct : Nat) : Nat := budgetCents * pct / 100

/-- Build a BudgetAllocation from percentages; the accommodation category is
the designated absorber of the rounding remainder so that the amounts sum to
the budget exactly (section 3 invariant). -/
def mkAllocation (budgetCents : Nat) (p : UpstreamPercentages) (fallback : Bool) :
    BudgetAllocation where
  flights := ⟨p.flights, amountOf budgetCents p.flights⟩
  accommodation := ⟨p.accommodation,
    budgetCents - (amountOf budgetCents p.flights + amountOf budgetCents p.activities +
      amountOf budgetCents p.food + amountOf budgetCents p.transportation)⟩
  activities := ⟨p.activities, amountOf budgetCents p.activities⟩
  food := ⟨p.food, amountOf budgetCents p.food⟩
  transportation := ⟨p.transportation, amountOf budgetCents p.transportation⟩
  fallbackUsed := fallback

/-- Modelled from the spec: the fixed heuristic fallback split, flights 30,
accommodation 35, activities 15, food 15, transportation 5 (section 4.2). -/
def fallbackPercentages : UpstreamPercentages where
  flights := 30
  accommodation := 35
  activities := 15
  food := 15
  transportation := 5

/-- Modelled from the spec: the Budget Allocator (section 4.2).  A parsed,
schema-valid response is used as is; a schema-invalid or failed outcome takes
the fallback split and sets the fallback-used flag.  The allocator is total:
it never fails the overall request. -/
def allocateBudget (req : TripRequest) (u : UpstreamOutcome) : BudgetAllocation :=
  match u with
  | .parsed p =>
    if percentagesValid p then mkAllocation req.budgetCents p false
    else mkAllocation req.budgetCents fallbackPercentages true
  | .failed => mkAllocation req.budgetCents fallbackPercentages true

/-- Modelled from the spec: a CatalogEntry (section 3), without the embedding
vector, which the synthesizer does not consume. -/
structure CatalogEntry where
  id : String
  category : String
  title : String
  location : String
  costCents : Nat
deriving DecidableEq

/-- Modelled from the spec: a RankedCandidate, a CatalogEntry plus its
similarity score (scaled to an integer). -/
structure RankedCandidate where
  entry : CatalogEntry
  score : Nat
deriving DecidableEq

/-- Modelled from the spec: the ranking order of the Embedding/Similarity
Index (section 4.1): descending by score, ties broken by ascending estimated
cost, then lexicographic title order. -/
def rankLE (a b : RankedCandidate) : Prop :=
  b.score < a.score ∨
    (a.score = b.score ∧
      (a.entry.costCents < b.entry.costCents ∨
        (a.entry.costCents = b.entry.costCents ∧ a.entry.title ≤ b.entry.title)))

instance : DecidableRel rankLE := fun a b => by
  unfold rankLE
  infer_instance

instance : IsTotal RankedCandidate rankLE where
  total := by
    intro a b
    rcases Nat.lt_trichotomy a.score b.score with h | h | h
    · exact Or.inr (Or.inl h)
    · rcases Nat.lt_trichotomy a.entry.costCents b.entry.costCents with h2 | h2 | h2
      · exact Or.inl (Or.inr ⟨h, Or.inl h2⟩)
      · rcases le_total a.entry.title b.entry.title with h3 | h3
        · exact Or.inl (Or.inr ⟨h, Or.inr ⟨h2, h3⟩⟩)
        · exact Or.inr (Or.inr ⟨h.symm, Or.inr ⟨h2.symm, h3⟩⟩)
      · exact Or.inr (Or.inr ⟨h.symm, Or.inl h2⟩)
    · exact Or.inl (Or.inl h)

instance : IsTrans RankedCandidate rankLE where
  trans := by
    rintro a b c (h1 | ⟨e1, h1⟩) (h2 | ⟨e2, h2⟩)
    · exact Or.inl (by omega)
    · exact Or.inl (by omega)
    · exact Or.inl (by omega)
    · rcases h1 with h1c | ⟨ec1, ht1⟩ <;> rcases h2 with h2c | ⟨ec2, ht2⟩
      · exact Or.inr ⟨by omega, Or.inl (by omega)⟩
      · exact Or.inr ⟨by omega, Or.inl (by omega)⟩
      · exact Or.inr ⟨by omega, Or.inl (by omega)⟩
      · exact Or.inr ⟨by omega, Or.inr ⟨by omega, le_trans ht1 ht2⟩⟩

/-- Modelled from the spec: the deterministic ranking primitive (section 4.1).
Sorting is by insertion, a stable deterministic procedure. -/
def rankCandidates (pool : List RankedCandidate) : List RankedCandidate :=
  pool.insertionSort rankLE

/-- Modelled from the spec: per-day activity budget (section 4.5 step 2). -/
def dayBudgetCents (activitiesAllocation D : Nat) : Nat :=
  activitiesAllocation / D

/-- Modelled from the spec: the per-day ceiling, the day budget scaled by the
plus-20-percent end of the smoothing window (section 4.5 steps 2 and 3). -/
def dayCeilingCents (activitiesAllocation D : Nat) : Nat :=
  dayBudgetCents activitiesAllocation D * 12 / 10

/-- Modelled from the spec: one scheduled slot of a day: a catalog activity
(with its per-occurrence repetition flag, section 4.5 step 4) or the
"explore independently" placeholder (section 4.5 step 3). -/
inductive Scheduled where
  | activity (entry : CatalogEntry) (repeated : Bool)
  | placeholder
deriving DecidableEq

/-- The catalog id carried by a scheduled slot, if any. -/
def schedId : Scheduled → Option String
  | .activity c _ => some c.id
  | .placeholder => none

/-- The repetition flag of a scheduled slot. -/
def schedRepeated : Scheduled → Bool
  | .activity _ r => r
  | .placeholder => false

/-- Modelled from the spec: a DayPlan, restricted to the fields the claims
mention. -/
structure DayPlan where
  dayIndex : Nat
  scheduled : Scheduled
  estimatedCostCents : Nat
deriving DecidableEq

/-- Modelled from the spec: the total-cost breakdown of an Itinerary. -/
structure CostBreakdown where
  activitiesTotal : Nat
  accommodationTotal : Nat
  flightAllocation : Nat
  totalCents : Nat
deriving DecidableEq

/-- Modelled from the spec: the root Itinerary output (section 3). -/
structure Itinerary where
  destination : String
  days : List DayPlan
  cost : CostBreakdown
  disclaimer : String
deriving DecidableEq

/-- Whether a candidate is fresh (not yet scheduled) and fits the ceiling. -/
def entryFits (used : List String) (maxCost : Nat) (c : CatalogEntry) : Bool :=
  !(used.contains c.id) && c.costCents ≤ maxCost

/-- Modelled from the spec: pick the highest-ranked unused candidate of a
category pool whose cost fits the day ceiling (section 4.5 step 3); the pool
is already in rank order. -/
def pickFresh (pool : List CatalogEntry) (used : List String) (maxCost : Nat) :
    Option CatalogEntry :=
  pool.find? (entryFits used maxCost)

/-- Try the categories of the rotation queue in order. -/
def pickAcross (pools : String → List CatalogEntry) (cats : List String)
    (used : List String) (maxCost : Nat) : Option CatalogEntry :=
  match cats with
  | [] => none
  | cat :: rest =>
    match pickFresh (pools cat) used maxCost with
    | some c => some c
    | none => pickAcross pools rest used maxCost

/-- Modelled from the spec: schedule one day (section 4.5 steps 3 and 4).  A
fresh candidate is scheduled unflagged; when no fresh candidate fits anywhere
a repetition of the front category's top candidate is allowed only if that
category's pool is smaller than the trip duration, flagged per occurrence;
otherwise the day receives the "explore independently" placeholder. -/
def scheduleDay (pools : String → List CatalogEntry) (rotation : List String)
    (used : List String) (maxCost D : Nat) : Scheduled :=
  match pickAcross pools rotation used maxCost with
  | some c => .activity c false
  | none =>
    match rotation with
    | [] => .placeholder
    | cat :: _ =>
      match pools cat with
      | [] => .placeholder
      | c :: _ => if (pools cat).length < D then .activity c true else .placeholder

/-- Record a scheduled activity's id as used. -/
def usedAfter (used : List String) : Scheduled → List String
  | .activity c _ => c.id :: used
  | .placeholder => used

/-- Round-robin rotation of the category queue (section 4.5 step 3). -/
def rotateQueue : List String → List String
  | [] => []
  | c :: rest => rest ++ [c]

/-- Modelled from the spec: the single-pass walk over the days (section 4.5).
`fuel` counts the remaining days; each day carries its estimated cost, with
the division remainder of the activities allocation absorbed into the final
day (section 4.5 step 5). -/
def buildDays (pools : String → List CatalogEntry) (D maxCost q r : Nat) :
    Nat → List String → List String → List DayPlan
  | 0, _, _ => []
  | fuel + 1, rotation, used =>
    let e := scheduleDay pools rotation used maxCost D
    { dayIndex := D - fuel,
      scheduled := e,
      estimatedCostCents := if fuel = 0 then q + r else q } ::
      buildDays pools D maxCost q r fuel (rotateQueue rotation) (usedAfter used e)

/-- Lowest-cost entry of a pool, if the pool is nonempty. -/
def minByCost : List CatalogEntry → Option CatalogEntry
  | [] => none
  | c :: cs =>
    match minByCost cs with
    | none => some c
    | some m => if c.costCents ≤ m.costCents then some c else some m

/-- Modelled from the spec: accommodation selection (section 4.5 step 1): the
highest-ranked hotel whose cost times the duration fits the accommodation
allocation, fixed across all days; otherwise the lowest-cost hotel flagged
over-budget. -/
def selectHotel (hotels : List CatalogEntry) (accomAllocation D : Nat) :
    Option (CatalogEntry × Bool) :=
  match hotels.find? (fun h => h.costCents * D ≤ accomAllocation) with
  | some h => some (h, false)
  | none =>
    match minByCost hotels with
    | some h => some (h, true)
    | none => none

/-- Modelled from the spec: the Itinerary Synthesizer (section 4.5).  The
upstream outcome and the per-category ranked pools stand for the resolved
outputs of the three agents; the function is pure, so identical inputs give
identical output. -/
def synthesize (req : TripRequest) (u : UpstreamOutcome)
    (pools : String → List CatalogEntry) (hotels : List CatalogEntry) : Itinerary :=
  let alloc := allocateBudget req u
  let D := req.durationDays
  let a := alloc.activities.amountCents
  let q := dayBudgetCents a D
  let r := a % D
  let maxCost := dayCeilingCents a D
  let accomTotal :=
    match selectHotel hotels alloc.accommodation.amountCents D with
    | some (h, _) => h.costCents * D
    | none => 0
  { destination := req.destination
    days := buildDays pools D maxCost q r D req.activityCategories []
    cost :=
      { activitiesTotal := a
        accommodationTotal := accomTotal
        flightAllocation := alloc.flights.amountCents
        totalCents := a + accomTotal + alloc.flights.amountCents }
    disclaimer := "All prices and availability are estimates." }

/-- Empty candidate pools, used by witnesses. -/
def emptyPools : String → List CatalogEntry := fun _ => []

/-- A concrete valid trip request used by witnesses. -/
def reqExample : TripRequest where
  origin := "NYC"
  destination := "Rome"
  durationDays := 2
  budgetCents := 100000
  travelers := 2
  activityCategories := ["food", "culture"]

/-- The trip request of the C8 scenario: budget 3000 dollars, 5 days. -/
def reqScenario : TripRequest where
  origin := "NYC"
  destination := "Rome"
  durationDays := 5
  budgetCents := 300000
  travelers := 1
  activityCategories := ["food", "culture"]

/-! ## Helper lemmas for the form claims -/

theorem jsFalsy_iff (s : String) : jsFalsy s = true ↔ s = "" := by
  constructor
  · intro h
    cases s with
    | mk data =>
      simp only [jsFalsy, List.isEmpty_iff] at h
      subst h
      rfl
  · intro h
    subst h
    rfl

theorem handleActivityChange_nodup (a : String) (l : List String) (h : l.Nodup) :
    (handleActivityChange a l).Nodup := by
  unfold handleActivityChange
  split
  · exact h.filter _
  · rename_i hc
    have ha : a ∉ l := by
      intro hmem
      exact hc (List.elem_iff.mpr hmem)
    simp [List.nodup_append, h, ha]

/-- C9: starting from the empty list, any sequence of `handleActivityChange`
toggles yields a duplicate-free activities list. -/
theorem activities_always_nodup (ops : List String) :
    (ops.foldl (fun acc a => handleActivityChange a acc) []).Nodup := by
  suffices h : ∀ (init : List String), init.Nodup →
      (ops.foldl (fun acc a => handleActivityChange a acc) init).Nodup by
    exact h [] List.nodup_nil
  induction ops with
  | nil => intro init h; simpa using h
  | cons b rest ih =>
    intro init h
    exact ih _ (handleActivityChange_nodup b init h)

/-- C10: toggling an activity that is absent from the list twice in a row
restores exactly the original list. -/
theorem handleActivityChange_roundTrip (l : List String) (a : String) (h : a ∉ l) :
    handleActivityChange a (handleActivityChange a l) = l := by
  have hc : l.contains a = false := by
    rcases hb : l.contains a with _ | _
    · rfl
    · exact absurd (List.elem_iff.mp hb) h
  have h1 : handleActivityChange a l = l ++ [a] := by
    unfold handleActivityChange
    rw [hc]
    simp
  rw [h1]
  unfold handleActivityChange
  have hc2 : (l ++ [a]).contains a = true := by
    simp [List.elem_iff]
  simp only [hc2, if_pos]
  rw [List.filter_append]
  have h2 : l.filter (fun x => x != a) = l := by
    rw [List.filter_eq_self]
    intro b hb
    simp only [bne_iff_ne, ne_eq]
    intro hba
    exact h (hba ▸ hb)
  have h3 : [a].filter (fun x => x != a) = [] := by simp
  rw [h2, h3, List.append_nil]

/-- Witness for C10 at a concrete input. -/
theorem handleActivityChange_roundTrip_witness :
    "culture" ∉ ["food"] ∧
      handleActivityChange "culture" (handleActivityChange "culture" ["food"]) = ["food"] :=
  ⟨by decide, handleActivityChange_roundTrip ["food"] "culture" (by decide)⟩

/-- C3: `validateForm` records an activities error iff the selected
activities list is empty, and an empty list blocks submission. -/
theorem validateForm_activities_iff (f : TravelFormData) :
    ((validateErrors f).activities = true ↔ f.activities = []) ∧
      (f.activities = [] → validateForm f = false) := by
  constructor
  · simp [validateErrors, List.length_eq_zero]
  · intro h
    have ha : (validateErrors f).activities = true := by
      simp [validateErrors, h]
    simp [validateForm, ha]

/-- Witness for C3 at a concrete input. -/
theorem validateForm_activities_iff_witness :
    validateForm
      { origin := "NYC", destination := "Paris", startDate := "2024-05-01",
        endDate := "2024-05-05", strictDates := "yes", budget := "1200",
        people := "2", travelMode := "plane", activities := [],
        visitedBefore := "no", hotelPreference := "mid-range" } = false :=
  (validateForm_activities_iff _).2 rfl

/-- C2 (amended): `validateForm` records a budget error iff the budget string
is empty or JavaScript `parseInt` applied to it yields a value that is at most
zero; the test inspects only the leading integer prefix of the string, not the
amount it denotes. -/
theorem validateForm_budget_iff (f : TravelFormData) :
    (validateErrors f).budget = true ↔
      (f.budget = "" ∨ ∃ n : Int, jsParseInt f.budget = some n ∧ n ≤ 0) := by
  simp only [validateErrors]
  rw [Bool.or_eq_true, jsFalsy_iff]
  constructor
  · rintro (h | h)
    · exact Or.inl h
    · unfold nonPositiveParseInt at h
      rcases hp : jsParseInt f.budget with _ | n
      · rw [hp] at h
        simp at h
      · rw [hp] at h
        simp only [decide_eq_true_eq] at h
        exact Or.inr ⟨n, rfl, h⟩
  · rintro (h | ⟨n, hn, hle⟩)
    · exact Or.inl h
    · right
      unfold nonPositiveParseInt
      rw [hn]
      simpa using hle

/-- C2 counterexample: the budget check is not "positive amount denoted".
The form with budget `"0.50"` denotes a positive amount but is rejected with a
budget error, while the form with budget `"abc"` denotes no positive amount
yet records no budget error and passes validation entirely. -/
theorem validateForm_budget_counterexample :
    denotesPositiveAmount formBudgetFractional.budget = true ∧
      (validateErrors formBudgetFractional).budget = true ∧
      validateForm formBudgetFractional = false ∧
      denotesPositiveAmount formBudgetNonNumeric.budget = false ∧
      (validateErrors formBudgetNonNumeric).budget = false ∧
      validateForm formBudgetNonNumeric = true := by decide

/-! ## Lexicographic comparison of ISO date strings -/

theorem uint32_eq_of_toNat_eq {a b : UInt32} (h : a.toNat = b.toNat) : a = b := by
  cases a
  cases b
  congr 1
  exact BitVec.eq_of_toNat_eq h

theorem char_toNat_inj {a b : Char} (h : a.toNat = b.toNat) : a = b :=
  Char.ext (uint32_eq_of_toNat_eq h)

theorem dchar_toNat {a : Nat} (ha : a ≤ 9) : (dchar a).toNat = 48 + a := by
  interval_cases a <;> rfl

theorem dchar_inj {a b : Nat} (ha : a ≤ 9) (hb : b ≤ 9) (h : dchar a = dchar b) : a = b := by
  have := congrArg Char.toNat h
  rw [dchar_toNat ha, dchar_toNat hb] at this
  omega

theorem lexLtChars_cons_iff (a b : Char) (l1 l2 : List Char) :
    lexLtChars (a :: l1) (b :: l2) = true ↔
      (a.toNat < b.toNat ∨ (a.toNat = b.toNat ∧ lexLtChars l1 l2 = true)) := by
  show (if a.toNat < b.toNat then true
        else if b.toNat < a.toNat then false else lexLtChars l1 l2) = true ↔ _
  split_ifs with h1 h2
  · exact iff_of_true rfl (Or.inl h1)
  · refine iff_of_false (by simp) ?_
    rintro (h | ⟨h, _⟩) <;> omega
  · have heq : a.toNat = b.toNat := by omega
    constructor
    · intro h
      exact Or.inr ⟨heq, h⟩
    · rintro (h | ⟨_, h⟩)
      · omega
      · exact h

theorem lexLtChars_append {l1 : List Char} : ∀ {l2 : List Char} (t1 t2 : List Char),
    l1.length = l2.length →
    (lexLtChars (l1 ++ t1) (l2 ++ t2) = true ↔
      (lexLtChars l1 l2 = true ∨ (l1 = l2 ∧ lexLtChars t1 t2 = true))) := by
  induction l1 with
  | nil =>
    intro l2 t1 t2 h
    cases l2 with
    | nil =>
      show lexLtChars t1 t2 = true ↔ (false = true ∨ ([] = ([] : List Char) ∧ lexLtChars t1 t2 = true))
      simp
    | cons b bs => simp at h
  | cons a as ih =>
    intro l2 t1 t2 h
    cases l2 with
    | nil => simp at h
    | cons b bs =>
      simp only [List.cons_append]
      rw [lexLtChars_cons_iff, lexLtChars_cons_iff, ih t1 t2 (by simpa using h)]
      constructor
      · rintro (h1 | ⟨heq, (h2 | ⟨hbs, h3⟩)⟩)
        · exact Or.inl (Or.inl h1)
        · exact Or.inl (Or.inr ⟨heq, h2⟩)
        · exact Or.inr ⟨by rw [char_toNat_inj heq, hbs], h3⟩
      · rintro ((h1 | ⟨heq, h2⟩) | ⟨hcons, h3⟩)
        · exact Or.inl h1
        · exact Or.inr ⟨heq, Or.inl h2⟩
        · injection hcons with hab hasbs
          exact Or.inr ⟨by rw [hab], Or.inr ⟨hasbs, h3⟩⟩

theorem natToDigits_length (k : Nat) : ∀ n, (natToDigits k n).length = k := by
  induction k with
  | zero => intro n; rfl
  | succ k ih => intro n; simp [natToDigits, ih]

theorem block_lt_iff {P a b r s : Nat} (hr : r < P) (hs : s < P) :
    P * a + r < P * b + s ↔ (a < b ∨ (a = b ∧ r < s)) := by
  rcases Nat.lt_trichotomy a b with h | h | h
  · refine iff_of_true ?_ (Or.inl h)
    calc P * a + r < P * (a + 1) := by rw [Nat.mul_succ]; exact Nat.add_lt_add_left hr (P * a)
    _ ≤ P * b := Nat.mul_le_mul_left P h
    _ ≤ P * b + s := Nat.le_add_right _ _
  · subst h
    constructor
    · intro hlt
      exact Or.inr ⟨rfl, Nat.lt_of_add_lt_add_left hlt⟩
    · rintro (hlt | ⟨_, hlt⟩)
      · omega
      · exact Nat.add_lt_add_left hlt _
  · refine iff_of_false ?_ ?_
    · intro hlt
      have hub : P * b + s < P * a + r :=
        calc P * b + s < P * (b + 1) := by rw [Nat.mul_succ]; exact Nat.add_lt_add_left hs (P * b)
        _ ≤ P * a := Nat.mul_le_mul_left P h
        _ ≤ P * a + r := Nat.le_add_right _ _
      exact Nat.lt_asymm hlt hub
    · rintro (hlt | ⟨heq, _⟩) <;> omega

theorem natToDigits_lt_iff (k : Nat) : ∀ {n m : Nat}, n < 10 ^ k → m < 10 ^ k →
    (lexLtChars (natToDigits k n) (natToDigits k m) = true ↔ n < m) := by
  induction k with
  | zero =>
    intro n m hn hm
    have hn0 : n = 0 := by simpa using hn
    have hm0 : m = 0 := by simpa using hm
    subst hn0
    subst hm0
    simp [natToDigits, lexLtChars]
  | succ k ih =>
    intro n m hn hm
    have hP : 0 < 10 ^ k := Nat.pow_pos (by omega)
    have hsucc : (10:Nat) ^ (k + 1) = 10 ^ k * 10 := Nat.pow_succ ..
    have hdn : n / 10 ^ k ≤ 9 := by
      have h10 : n / 10 ^ k < 10 := by
        rw [Nat.div_lt_iff_lt_mul hP]
        rw [hsucc] at hn
        omega
      omega
    have hdm : m / 10 ^ k ≤ 9 := by
      have h10 : m / 10 ^ k < 10 := by
        rw [Nat.div_lt_iff_lt_mul hP]
        rw [hsucc] at hm
        omega
      omega
    have key := block_lt_iff (P := 10 ^ k) (a := n / 10 ^ k) (b := m / 10 ^ k)
      (Nat.mod_lt n hP) (Nat.mod_lt m hP)
    rw [Nat.div_add_mod n (10 ^ k), Nat.div_add_mod m (10 ^ k)] at key
    simp only [natToDigits]
    rw [lexLtChars_cons_iff, dchar_toNat hdn, dchar_toNat hdm,
      ih (Nat.mod_lt n hP) (Nat.mod_lt m hP)]
    simp only [Nat.add_lt_add_iff_left, Nat.add_right_cancel_iff, Nat.add_left_cancel_iff]
    exact key.symm

theorem natToDigits_inj (k : Nat) : ∀ {n m : Nat}, n < 10 ^ k → m < 10 ^ k →
    (natToDigits k n = natToDigits k m ↔ n = m) := by
  induction k with
  | zero =>
    intro n m hn hm
    have hn0 : n = 0 := by simpa using hn
    have hm0 : m = 0 := by simpa using hm
    subst hn0
    subst hm0
    simp [natToDigits]
  | succ k ih =>
    intro n m hn hm
    have hP : 0 < 10 ^ k := Nat.pow_pos (by omega)
    have hsucc : (10:Nat) ^ (k + 1) = 10 ^ k * 10 := Nat.pow_succ ..
    have hdn : n / 10 ^ k ≤ 9 := by
      have h10 : n / 10 ^ k < 10 := by
        rw [Nat.div_lt_iff_lt_mul hP]
        rw [hsucc] at hn
        omega
      omega
    have hdm : m / 10 ^ k ≤ 9 := by
      have h10 : m / 10 ^ k < 10 := by
        rw [Nat.div_lt_iff_lt_mul hP]
        rw [hsucc] at hm
        omega
      omega
    simp only [natToDigits, List.cons.injEq]
    rw [ih (Nat.mod_lt n hP) (Nat.mod_lt m hP)]
    constructor
    · rintro ⟨hd, hmod⟩
      have hdiv := dchar_inj hdn hdm hd
      calc n = 10 ^ k * (n / 10 ^ k) + n % 10 ^ k := (Nat.div_add_mod n (10 ^ k)).symm
      _ = 10 ^ k * (m / 10 ^ k) + m % 10 ^ k := by rw [hdiv, hmod]
      _ = m := Nat.div_add_mod m (10 ^ k)
    · rintro rfl
      exact ⟨rfl, rfl⟩

theorem isoString_lt_iff {d1 d2 : IsoDate} (h1 : d1.Valid) (h2 : d2.Valid) :
    (jsStringLt (isoString d1) (isoString d2) = true ↔ d1.key < d2.key) := by
  obtain ⟨hy1, hm1l, hm1u, hdy1l, hdy1u⟩ := h1
  obtain ⟨hy2, hm2l, hm2u, hdy2l, hdy2u⟩ := h2
  have e4 : (10:Nat) ^ 4 = 10000 := by norm_num
  have e2 : (10:Nat) ^ 2 = 100 := by norm_num
  have hy1b : d1.year < 10 ^ 4 := by rw [e4]; omega
  have hy2b : d2.year < 10 ^ 4 := by rw [e4]; omega
  have hm1b : d1.month < 10 ^ 2 := by rw [e2]; omega
  have hm2b : d2.month < 10 ^ 2 := by rw [e2]; omega
  have hdy1b : d1.day < 10 ^ 2 := by rw [e2]; omega
  have hdy2b : d2.day < 10 ^ 2 := by rw [e2]; omega
  have hlen4 : (natToDigits 4 d1.year).length = (natToDigits 4 d2.year).length := by
    rw [natToDigits_length, natToDigits_length]
  have hlen2 : (natToDigits 2 d1.month).length = (natToDigits 2 d2.month).length := by
    rw [natToDigits_length, natToDigits_length]
  show lexLtChars
      (natToDigits 4 d1.year ++ '-' :: (natToDigits 2 d1.month ++ '-' :: natToDigits 2 d1.day))
      (natToDigits 4 d2.year ++ '-' :: (natToDigits 2 d2.month ++ '-' :: natToDigits 2 d2.day))
      = true ↔ d1.key < d2.key
  rw [lexLtChars_append _ _ hlen4, natToDigits_lt_iff 4 hy1b hy2b,
    natToDigits_inj 4 hy1b hy2b, lexLtChars_cons_iff]
  simp only [lt_self_iff_false, false_or, true_and]
  rw [lexLtChars_append _ _ hlen2, natToDigits_lt_iff 2 hm1b hm2b,
    natToDigits_inj 2 hm1b hm2b, lexLtChars_cons_iff]
  simp only [lt_self_iff_false, false_or, true_and]
  rw [natToDigits_lt_iff 2 hdy1b hdy2b]
  simp only [IsoDate.key]
  omega

theorem isoString_not_falsy (d : IsoDate) : jsFalsy (isoString d) = false := by
  have hlen := natToDigits_length 4 d.year
  rcases hnd : natToDigits 4 d.year with _ | ⟨c, cs⟩
  · rw [hnd] at hlen
    simp at hlen
  · show (natToDigits 4 d.year ++
      '-' :: (natToDigits 2 d.month ++ '-' :: natToDigits 2 d.day)).isEmpty = false
    rw [hnd]
    rfl

/-- C1: for a submitted form whose start and end dates are (valid) ISO date
strings, `validateForm` records an endDate error iff the end date is at most
the start date chronologically, and in that case validation fails, blocking
submission.  The source compares the two strings lexicographically with `>=`;
on zero-padded ISO dates this agrees with chronological order. -/
theorem validateForm_endDate_iff (f : TravelFormData) (d1 d2 : IsoDate)
    (hv1 : d1.Valid) (hv2 : d2.Valid)
    (hs : f.startDate = isoString d1) (he : f.endDate = isoString d2) :
    ((validateErrors f).endDate = true ↔ d2.key ≤ d1.key) ∧
      (d2.key ≤ d1.key → validateForm f = false) := by
  have key := isoString_lt_iff hv1 hv2
  have hiff : (validateErrors f).endDate = true ↔ d2.key ≤ d1.key := by
    simp only [validateErrors, hs, he, isoString_not_falsy, Bool.false_or,
      Bool.not_false, Bool.true_and]
    rw [Bool.not_eq_true']
    constructor
    · intro h
      have hnlt : ¬ d1.key < d2.key := by
        rw [← key, h]
        simp
      omega
    · intro h
      rcases hb : jsStringLt (isoString d1) (isoString d2) with _ | _
      · rfl
      · have := key.mp hb
        omega
  refine ⟨hiff, fun hk => ?_⟩
  have hflag := hiff.mpr hk
  simp [validateForm, hflag]

/-- Witness for C1 at a concrete input: equal start and end dates. -/
theorem validateForm_endDate_iff_witness :
    (((validateErrors formSameDates).endDate = true ↔
        isoDateMay10.key ≤ isoDateMay10.key) ∧
      (isoDateMay10.key ≤ isoDateMay10.key → validateForm formSameDates = false)) :=
  validateForm_endDate_iff formSameDates isoDateMay10 isoDateMay10
    ⟨by decide, by decide, by decide, by decide, by decide⟩
    ⟨by decide, by decide, by decide, by decide, by decide⟩
    rfl rfl

/-! ## Budget allocator and synthesizer theorems -/

/-- C4: whenever the allocator takes its fallback path (failed service, or a
parsed but schema-invalid response), the allocation is exactly the fixed
split flights 30, accommodation 35, activities 15, food 15, transportation 5,
summing to 100, with the fallback flag set.  `allocateBudget` is a total
function, so the allocator never fails the overall request. -/
theorem allocateBudget_fallback (req : TripRequest) (u : UpstreamOutcome)
    (h : u = UpstreamOutcome.failed ∨
      ∃ p, u = UpstreamOutcome.parsed p ∧ percentagesValid p = false) :
    (allocateBudget req u).flights.percentage = 30 ∧
      (allocateBudget req u).accommodation.percentage = 35 ∧
      (allocateBudget req u).activities.percentage = 15 ∧
      (allocateBudget req u).food.percentage = 15 ∧
      (allocateBudget req u).transportation.percentage = 5 ∧
      (allocateBudget req u).flights.percentage +
          (allocateBudget req u).accommodation.percentage +
          (allocateBudget req u).activities.percentage +
          (allocateBudget req u).food.percentage +
          (allocateBudget req u).transportation.percentage = 100 ∧
      (allocateBudget req u).fallbackUsed = true := by
  rcases h with rfl | ⟨p, rfl, hp⟩
  · simp [allocateBudget, mkAllocation, fallbackPercentages]
  · simp [allocateBudget, mkAllocation, fallbackPercentages, hp]

/-- Witness for C4 at a concrete input. -/
theorem allocateBudget_fallback_witness :
    (allocateBudget reqExample UpstreamOutcome.failed).flights.percentage = 30 ∧
      (allocateBudget reqExample UpstreamOutcome.failed).accommodation.percentage = 35 ∧
      (allocateBudget reqExample UpstreamOutcome.failed).activities.percentage = 15 ∧
      (allocateBudget reqExample UpstreamOutcome.failed).food.percentage = 15 ∧
      (allocateBudget reqExample UpstreamOutcome.failed).transportation.percentage = 5 ∧
      (allocateBudget reqExample UpstreamOutcome.failed).flights.percentage +
          (allocateBudget reqExample UpstreamOutcome.failed).accommodation.percentage +
          (allocateBudget reqExample UpstreamOutcome.failed).activities.percentage +
          (allocateBudget reqExample UpstreamOutcome.failed).food.percentage +
          (allocateBudget reqExample UpstreamOutcome.failed).transportation.percentage = 100 ∧
      (allocateBudget reqExample UpstreamOutcome.failed).fallbackUsed = true :=
  allocateBudget_fallback reqExample UpstreamOutcome.failed (Or.inl rfl)

/-- C8: for a budget of 3000 dollars over 5 days, the fallback split gives an
activities amount of exactly 45000 cents (450 dollars); the per-day budget is
9000 cents (90 dollars) and the ceiling scaled by 1.2 is exactly 10800 cents
(108 dollars) in integer-cent arithmetic. -/
theorem scenario_fallback_amounts :
    (allocateBudget reqScenario UpstreamOutcome.failed).activities.amountCents = 45000 ∧
      dayBudgetCents
        (allocateBudget reqScenario UpstreamOutcome.failed).activities.amountCents
        reqScenario.durationDays = 9000 ∧
      dayCeilingCents
        (allocateBudget reqScenario UpstreamOutcome.failed).activities.amountCents
        reqScenario.durationDays = 10800 := by decide

/-- C6: ranking is deterministic and orders candidates descending by score,
with ties broken by ascending estimated cost and then lexicographic title
order; `synthesize` is a pure function, so identical requests with identical
resolved agent outputs produce identical itineraries. -/
theorem rankCandidates_deterministic_sorted (pool : List RankedCandidate) :
    List.Sorted rankLE (rankCandidates pool) ∧
      (rankCandidates pool).Perm pool ∧
      (∀ a b : RankedCandidate, rankLE a b ↔
        (b.score < a.score ∨
          (a.score = b.score ∧
            (a.entry.costCents < b.entry.costCents ∨
              (a.entry.costCents = b.entry.costCents ∧ a.entry.title ≤ b.entry.title))))) ∧
      (∀ (req : TripRequest) (u : UpstreamOutcome) (pools : String → List CatalogEntry)
        (hotels : List CatalogEntry),
        synthesize req u pools hotels = synthesize req u pools hotels) :=
  ⟨List.sorted_insertionSort rankLE pool, List.perm_insertionSort rankLE pool,
    fun _ _ => Iff.rfl, fun _ _ _ _ => rfl⟩

theorem buildDays_costs (pools : String → List CatalogEntry) (D maxCost q r : Nat) :
    ∀ fuel rotation used, 1 ≤ fuel →
      (buildDays pools D maxCost q r fuel rotation used).map DayPlan.estimatedCostCents =
        List.replicate (fuel - 1) q ++ [q + r] := by
  intro fuel
  induction fuel with
  | zero => intro rotation used h; exact absurd h (by omega)
  | succ n ih =>
    intro rotation used _
    rw [buildDays]
    cases n with
    | zero => simp [buildDays]
    | succ m =>
      rw [List.map_cons, ih _ _ (by omega)]
      simp [List.replicate_succ]

theorem replicate_sum_div_mod (a D : Nat) (hD : 1 ≤ D) :
    (List.replicate (D - 1) (a / D) ++ [a / D + a % D]).sum = a := by
  obtain ⟨d, rfl⟩ : ∃ d, D = d + 1 := ⟨D - 1, by omega⟩
  simp only [Nat.add_sub_cancel, List.sum_append, List.sum_replicate, smul_eq_mul,
    List.sum_cons, List.sum_nil]
  have h : (d + 1) * (a / (d + 1)) + a % (d + 1) = a := Nat.div_add_mod a (d + 1)
  rw [Nat.succ_mul] at h
  simpa [Nat.add_assoc] using h

/-- C5: for every trip request with at least one day, the itinerary's grand
total equals the sum of the per-day estimated costs plus the accommodation
total plus the flight allocation, exactly; the division remainder of the
activities allocation is absorbed entirely into the final day's cost. -/
theorem synthesize_total_exact (req : TripRequest) (u : UpstreamOutcome)
    (pools : String → List CatalogEntry) (hotels : List CatalogEntry)
    (hD : 1 ≤ req.durationDays) :
    ((synthesize req u pools hotels).cost.totalCents =
        ((synthesize req u pools hotels).days.map DayPlan.estimatedCostCents).sum +
          (synthesize req u pools hotels).cost.accommodationTotal +
          (synthesize req u pools hotels).cost.flightAllocation) ∧
      ((synthesize req u pools hotels).days.map DayPlan.estimatedCostCents =
        List.replicate (req.durationDays - 1)
            ((allocateBudget req u).activities.amountCents / req.durationDays) ++
          [(allocateBudget req u).activities.amountCents / req.durationDays +
            (allocateBudget req u).activities.amountCents % req.durationDays]) := by
  have hcosts := buildDays_costs pools req.durationDays
    (dayCeilingCents (allocateBudget req u).activities.amountCents req.durationDays)
    (dayBudgetCents (allocateBudget req u).activities.amountCents req.durationDays)
    ((allocateBudget req u).activities.amountCents % req.durationDays)
    req.durationDays req.activityCategories [] hD
  have hmap : (synthesize req u pools hotels).days.map DayPlan.estimatedCostCents =
      List.replicate (req.durationDays - 1)
          ((allocateBudget req u).activities.amountCents / req.durationDays) ++
        [(allocateBudget req u).activities.amountCents / req.durationDays +
          (allocateBudget req u).activities.amountCents % req.durationDays] := by
    simp only [synthesize]
    rw [hcosts]
    simp only [dayBudgetCents]
  refine ⟨?_, hmap⟩
  rw [hmap, replicate_sum_div_mod _ _ hD]
  simp only [synthesize]

/-- Witness for C5 at a concrete input. -/
theorem synthesize_total_exact_witness :
    ((synthesize reqExample UpstreamOutcome.failed emptyPools []).cost.totalCents =
        ((synthesize reqExample UpstreamOutcome.failed emptyPools []).days.map
            DayPlan.estimatedCostCents).sum +
          (synthesize reqExample UpstreamOutcome.failed emptyPools []).cost.accommodationTotal +
          (synthesize reqExample UpstreamOutcome.failed emptyPools []).cost.flightAllocation) ∧
      ((synthesize reqExample UpstreamOutcome.failed emptyPools []).days.map
          DayPlan.estimatedCostCents =
        List.replicate (reqExample.durationDays - 1)
            ((allocateBudget reqExample UpstreamOutcome.failed).activities.amountCents /
              reqExample.durationDays) ++
          [(allocateBudget reqExample UpstreamOutcome.failed).activities.amountCents /
              reqExample.durationDays +
            (allocateBudget reqExample UpstreamOutcome.failed).activities.amountCents %
              reqExample.durationDays]) :=
  synthesize_total_exact reqExample UpstreamOutcome.failed emptyPools [] (by decide)

/-! ## Diversity invariant of the synthesizer -/

theorem pickFresh_spec {pool : List CatalogEntry} {used : List String} {maxCost : Nat}
    {c : CatalogEntry} (h : pickFresh pool used maxCost = some c) :
    used.contains c.id = false ∧ c ∈ pool := by
  have h1 := List.find?_some h
  have h2 := List.mem_of_find?_eq_some h
  refine ⟨?_, h2⟩
  unfold entryFits at h1
  rcases hb : used.contains c.id with _ | _
  · rfl
  · rw [hb] at h1
    simp at h1

theorem pickAcross_spec {pools : String → List CatalogEntry} :
    ∀ {cats used : List String} {maxCost : Nat} {c : CatalogEntry},
      pickAcross pools cats used maxCost = some c →
      used.contains c.id = false ∧ ∃ cat ∈ cats, c ∈ pools cat := by
  intro cats
  induction cats with
  | nil =>
    intro used maxCost c h
    simp [pickAcross] at h
  | cons cat rest ih =>
    intro used maxCost c h
    simp only [pickAcross] at h
    rcases hp : pickFresh (pools cat) used maxCost with _ | c2
    · rw [hp] at h
      obtain ⟨h1, cat2, hmem, hc⟩ := ih h
      exact ⟨h1, cat2, List.mem_cons_of_mem _ hmem, hc⟩
    · rw [hp] at h
      injection h with heq
      subst heq
      obtain ⟨h1, h2⟩ := pickFresh_spec hp
      exact ⟨h1, cat, List.mem_cons_self .., h2⟩

theorem scheduleDay_fresh_not_used {pools : String → List CatalogEntry}
    {rotation used : List String} {maxCost D : Nat} {c : CatalogEntry}
    (h : scheduleDay pools rotation used maxCost D = Scheduled.activity c false) :
    used.contains c.id = false := by
  unfold scheduleDay at h
  rcases hp : pickAcross pools rotation used maxCost with _ | c2
  · rw [hp] at h
    dsimp only at h
    rcases rotation with _ | ⟨cat, rest⟩
    · dsimp only at h
      exact Scheduled.noConfusion h
    · dsimp only at h
      rcases hpool : pools cat with _ | ⟨c3, cs⟩
      · rw [hpool] at h
        dsimp only at h
        exact Scheduled.noConfusion h
      · rw [hpool] at h
        dsimp only at h
        by_cases hlt : (c3 :: cs).length < D
        · rw [if_pos hlt] at h
          injection h with _ hflag
          exact Bool.noConfusion hflag
        · rw [if_neg hlt] at h
          exact Scheduled.noConfusion h
  · rw [hp] at h
    dsimp only at h
    injection h with heq _
    subst heq
    exact (pickAcross_spec hp).1

theorem scheduleDay_flagged_small {pools : String → List CatalogEntry}
    {rotation used : List String} {maxCost D : Nat} {c : CatalogEntry}
    (h : scheduleDay pools rotation used maxCost D = Scheduled.activity c true) :
    ∃ cat ∈ rotation, c ∈ pools cat ∧ (pools cat).length < D := by
  unfold scheduleDay at h
  rcases hp : pickAcross pools rotation used maxCost with _ | c2
  · rw [hp] at h
    dsimp only at h
    rcases rotation with _ | ⟨cat, rest⟩
    · dsimp only at h
      exact Scheduled.noConfusion h
    · dsimp only at h
      rcases hpool : pools cat with _ | ⟨c3, cs⟩
      · rw [hpool] at h
        dsimp only at h
        exact Scheduled.noConfusion h
      · rw [hpool] at h
        dsimp only at h
        by_cases hlt : (c3 :: cs).length < D
        · rw [if_pos hlt] at h
          injection h with heq _
          subst heq
          refine ⟨cat, List.mem_cons_self .., ?_, ?_⟩
          · rw [hpool]
            exact List.mem_cons_self ..
          · rw [hpool]
            exact hlt
        · rw [if_neg hlt] at h
          exact Scheduled.noConfusion h
  · rw [hp] at h
    dsimp only at h
    injection h with _ hflag
    exact Bool.noConfusion hflag

theorem usedAfter_contains_mono {used : List String} {e : Scheduled} {s : String}
    (h : (usedAfter used e).contains s = false) : used.contains s = false := by
  cases e with
  | activity c rep =>
    simp only [usedAfter, List.contains_cons, Bool.or_eq_false_iff] at h
    exact h.2
  | placeholder => exact h

theorem usedAfter_contains_self {used : List String} {c : CatalogEntry} {rep : Bool} :
    (usedAfter used (Scheduled.activity c rep)).contains c.id = true := by
  simp [usedAfter, List.contains_cons]

theorem buildDays_fresh_pairwise (pools : String → List CatalogEntry) (D maxCost q r : Nat) :
    ∀ fuel rotation used,
      (∀ d ∈ buildDays pools D maxCost q r fuel rotation used,
        schedRepeated d.scheduled = false → ∀ s, schedId d.scheduled = some s →
          used.contains s = false) ∧
      List.Pairwise
        (fun d1 d2 => ∀ s, schedId d1.scheduled = some s → schedId d2.scheduled = some s →
          schedRepeated d2.scheduled = true)
        (buildDays pools D maxCost q r fuel rotation used) := by
  intro fuel
  induction fuel with
  | zero =>
    intro rotation used
    constructor
    · intro d hd
      simp [buildDays] at hd
    · simp [buildDays]
  | succ n ih =>
    intro rotation used
    obtain ⟨ihA, ihP⟩ := ih (rotateQueue rotation)
      (usedAfter used (scheduleDay pools rotation used maxCost D))
    rw [buildDays]
    constructor
    · intro d hd hrep s hid
      rcases List.mem_cons.mp hd with rfl | hd2
      · dsimp only at hrep hid
        cases hE : scheduleDay pools rotation used maxCost D with
        | activity c rep =>
          rw [hE] at hrep hid
          simp only [schedRepeated] at hrep
          simp only [schedId, Option.some.injEq] at hid
          subst hrep
          subst hid
          exact scheduleDay_fresh_not_used hE
        | placeholder =>
          rw [hE] at hid
          simp [schedId] at hid
      · exact usedAfter_contains_mono (ihA d hd2 hrep s hid)
    · refine List.pairwise_cons.mpr ⟨?_, ihP⟩
      intro d2 hd2 s hid1 hid2
      dsimp only at hid1
      rcases hrep2 : schedRepeated d2.scheduled with _ | _
      · exfalso
        have hA2 := ihA d2 hd2 hrep2 s hid2
        cases hE : scheduleDay pools rotation used maxCost D with
        | activity c rep =>
          rw [hE] at hid1
          simp only [schedId, Option.some.injEq] at hid1
          subst hid1
          rw [hE] at hA2
          rw [usedAfter_contains_self] at hA2
          exact Bool.noConfusion hA2
        | placeholder =>
          rw [hE] at hid1
          simp [schedId] at hid1
      · rfl

theorem buildDays_flagged (pools : String → List CatalogEntry) (D maxCost q r : Nat)
    (hcoh : ∀ cat, ∀ c ∈ pools cat, c.category = cat) :
    ∀ fuel rotation used, ∀ d ∈ buildDays pools D maxCost q r fuel rotation used,
      ∀ c, d.scheduled = Scheduled.activity c true → (pools c.category).length < D := by
  intro fuel
  induction fuel with
  | zero =>
    intro rotation used d hd
    simp [buildDays] at hd
  | succ n ih =>
    intro rotation used d hd c hc
    rw [buildDays] at hd
    rcases List.mem_cons.mp hd with rfl | hd2
    · dsimp only at hc
      obtain ⟨cat, hcat, hcmem, hlen⟩ := scheduleDay_flagged_small hc
      rw [hcoh cat c hcmem]
      exact hlen
    · exact ih _ _ d hd2 c hc

/-- C7: diversity invariant.  Among the scheduled catalog entries of an
itinerary, any two occurrences of the same catalog id force the later
occurrence to carry the per-occurrence repetition flag, and a flagged entry
occurs only when its category pool is smaller than the trip duration in days;
hence no id is scheduled twice unless its category pool is smaller than the
duration, and then every repeat occurrence is flagged. -/
theorem synthesize_diversity (req : TripRequest) (u : UpstreamOutcome)
    (pools : String → List CatalogEntry) (hotels : List CatalogEntry)
    (hcoh : ∀ cat, ∀ c ∈ pools cat, c.category = cat) :
    List.Pairwise
        (fun d1 d2 => ∀ s, schedId d1.scheduled = some s → schedId d2.scheduled = some s →
          schedRepeated d2.scheduled = true)
        (synthesize req u pools hotels).days ∧
      ∀ d ∈ (synthesize req u pools hotels).days, ∀ c,
        d.scheduled = Scheduled.activity c true →
          (pools c.category).length < req.durationDays := by
  constructor
  · simp only [synthesize]
    exact (buildDays_fresh_pairwise pools req.durationDays _ _ _ req.durationDays
      req.activityCategories []).2
  · simp only [synthesize]
    exact buildDays_flagged pools req.durationDays _ _ _ hcoh req.durationDays
      req.activityCategories []

/-- Witness for C7 at a concrete input. -/
theorem synthesize_diversity_witness :
    List.Pairwise
        (fun d1 d2 => ∀ s, schedId d1.scheduled = some s → schedId d2.scheduled = some s →
          schedRepeated d2.scheduled = true)
        (synthesize reqExample UpstreamOutcome.failed emptyPools []).days ∧
      ∀ d ∈ (synthesize reqExample UpstreamOutcome.failed emptyPools []).days, ∀ c,
        d.scheduled = Scheduled.activity c true →
          (emptyPools c.category).length < reqExample.durationDays :=
  synthesize_diversity reqExample UpstreamOutcome.failed emptyPools []
    (fun cat c hc => absurd hc (by simp [emptyPools]))
